import Mathlib

/-!
Shallow embedding of the per-user local-midnight sessionization scheduler
from sql/0008_per_user_local_midnight_scheduler.sql (table
public.user_midnight_runs together with the PL/pgSQL function
public.run_sessionize_for_users_crossing_midnight) and the retention sweep
of sql/0009_verify_local_midnight_scheduler.sql.

Modelling conventions:
- absolute instants are minutes since an arbitrary UTC epoch (Int);
- a civil date is a day number (Int), day k covering local minutes
  k*1440 .. k*1440+1439;
- an IANA time zone is modelled by its offset rule, the UTC offset in
  minutes in effect at each instant, so that each AT TIME ZONE conversion
  resolves the offset at the instant being converted (DST-aware);
- the downstream collaborator public.sessionize_recent_visits is modelled
  by whether the call returns normally or raises; PERFORM discards its
  integer result;
- the function body contains no EXCEPTION block, so an exception raised by
  the downstream call propagates out of the function; pg_cron executes the
  scheduled SELECT in a single transaction, hence a propagating exception
  rolls back every insert the tick made.  Except.error models the
  propagating exception and tickLedgerAfter applies the rollback.
-/

namespace MidnightScheduler

/-- Absolute instants: minutes since an arbitrary UTC epoch. -/
abbrev Instant := Int

/-- Civil dates as day numbers. -/
abbrev LocalDate := Int

/-- User identifiers (UUID in the source, opaque here). -/
abbrev UserId := Nat

/-- An IANA time zone, modelled by its offset rule: the UTC offset in
minutes in effect at each absolute instant. -/
def Timezone := Instant → Int

/-- (t AT TIME ZONE tz)::DATE — convert the instant to zone-local wall
time, resolving the offset in effect at t itself, and take the civil date
(floor division by the number of minutes in a day). -/
def localDate (t : Instant) (tz : Timezone) : LocalDate :=
  (t + tz t).fdiv 1440

/-- One row of public.user_midnight_runs. -/
structure DedupeRecord where
  user_id : UserId
  local_date : LocalDate
  ran_at : Instant
deriving DecidableEq

/-- The contents of the public.user_midnight_runs table. -/
abbrev Ledger := List DedupeRecord

/-- Whether a row with PRIMARY KEY (u, d) is present in the table. -/
def hasPair (l : Ledger) (u : UserId) (d : LocalDate) : Bool :=
  l.any fun r => r.user_id == u && r.local_date == d

/-- INSERT INTO public.user_midnight_runs(user_id, local_date) VALUES (u, d)
ON CONFLICT (user_id, local_date) DO NOTHING, with ran_at defaulting to
NOW(), followed by GET DIAGNOSTICS row count: returns whether this call
inserted the row, and the table after the statement. -/
def claim (l : Ledger) (u : UserId) (d : LocalDate) (now : Instant) :
    Bool × Ledger :=
  if hasPair l u d then (false, l)
  else (true, ⟨u, d, now⟩ :: l)

/-- A row of public.profiles: id plus nullable IANA timezone. -/
structure Profile where
  id : UserId
  timezone : Option Timezone

/-- The detector as the spec words it: detect(now, window, tz) is true
exactly when the local date at now differs from the local date at
now - window, each side resolving the zone offset at its own instant. -/
def detect (now : Instant) (window_minutes : Int) (tz : Timezone) : Bool :=
  localDate now tz != localDate (now - window_minutes) tz

/-- The FOR loop query of run_sessionize_for_users_crossing_midnight:
SELECT p.id, p.timezone FROM public.profiles p WHERE p.timezone IS NOT NULL
AND (v_now_utc AT TIME ZONE p.timezone)::DATE is distinct from
(v_prev AT TIME ZONE p.timezone)::DATE, where v_prev is v_now_utc minus
window_minutes minutes. -/
def candidates (v_now_utc : Instant) (window_minutes : Int)
    (profiles : List Profile) : List (UserId × Timezone) :=
  profiles.filterMap fun p =>
    match p.timezone with
    | none => none
    | some tz =>
      if localDate v_now_utc tz ≠ localDate (v_now_utc - window_minutes) tz
      then some (p.id, tz) else none

/-- Outcome of the downstream collaborator
public.sessionize_recent_visits(user_id, gap_threshold_minutes,
lookback_hours): true when the call returns normally, false when it raises
an exception.  PERFORM discards the integer it returns. -/
def Sessionize := UserId → Int → Int → Bool

/-- The FOR loop body of run_sessionize_for_users_crossing_midnight over
the remaining candidate rows.  State threaded through: the dedupe table,
the runs counter and, for observability of the model, the list of users
for whom the downstream processor has been invoked.  The function body has
no EXCEPTION block, so an exception raised by the downstream call aborts
the loop and propagates: Except.error models that. -/
def tickLoop (sess : Sessionize)
    (gap_threshold_minutes lookback_hours : Int) (v_now_utc : Instant) :
    List (UserId × Timezone) → Ledger → Nat → List UserId →
    Except Unit (Ledger × Nat × List UserId)
  | [], l, runs, invoked => .ok (l, runs, invoked)
  | (uid, tz) :: rest, l, runs, invoked =>
    let new_local_date := localDate v_now_utc tz
    let res := claim l uid new_local_date v_now_utc
    if res.fst then
      if sess uid gap_threshold_minutes lookback_hours then
        tickLoop sess gap_threshold_minutes lookback_hours v_now_utc rest
          res.snd (runs + 1) (invoked ++ [uid])
      else .error ()
    else
      tickLoop sess gap_threshold_minutes lookback_hours v_now_utc rest
        res.snd runs invoked

/-- public.run_sessionize_for_users_crossing_midnight(gap_threshold_minutes,
lookback_hours, window_minutes): loops over the users whose local date
changed within the window, claims each in the dedupe table, invokes the
downstream processor for each winning claim and returns the runs counter.
On success the result carries the dedupe table produced by the loop, the
returned count and the users invoked; Except.error models an exception
propagating out of the function. -/
def run_sessionize_for_users_crossing_midnight (sess : Sessionize)
    (gap_threshold_minutes lookback_hours window_minutes : Int)
    (v_now_utc : Instant) (profiles : List Profile) (l : Ledger) :
    Except Unit (Ledger × Nat × List UserId) :=
  tickLoop sess gap_threshold_minutes lookback_hours v_now_utc
    (candidates v_now_utc window_minutes profiles) l 0 []

/-- The dedupe table once the cron-invoked statement has finished: pg_cron
runs the scheduled SELECT in one transaction, so an exception propagating
out of the function aborts the transaction and every insert the tick made
is rolled back, leaving the table as it was before the tick. -/
def tickLedgerAfter (sess : Sessionize)
    (gap_threshold_minutes lookback_hours window_minutes : Int)
    (v_now_utc : Instant) (profiles : List Profile) (l : Ledger) : Ledger :=
  match run_sessionize_for_users_crossing_midnight sess
      gap_threshold_minutes lookback_hours window_minutes v_now_utc
      profiles l with
  | .ok (l', _, _) => l'
  | .error _ => l

/-- The retention sweep of sql/0009: DELETE FROM public.user_midnight_runs
WHERE ran_at is before the cutoff; returns the surviving table and the
number of rows deleted. -/
def purge_older_than (cutoff : Instant) (l : Ledger) : Ledger × Nat :=
  let kept := l.filter fun r => !(decide (r.ran_at < cutoff))
  (kept, l.length - kept.length)

/-- The PRIMARY KEY (user_id, local_date) invariant: no two rows of the
table share the key pair. -/
def KeysUnique (l : Ledger) : Prop :=
  l.Pairwise fun a b => ¬(a.user_id = b.user_id ∧ a.local_date = b.local_date)

/-- n callers issuing the identical claim for one (user, date) pair.  The
conflict-checked insert is atomic in PostgreSQL, so every concurrent
execution is equivalent to some serial order of the n calls, and since the
calls are identical a single serial chain models every interleaving. -/
def claimN : Nat → Ledger → UserId → LocalDate → Instant →
    List Bool × Ledger
  | 0, l, _, _, _ => ([], l)
  | n + 1, l, u, d, t =>
    let res := claim l u d t
    let tail := claimN n res.snd u d t
    (res.fst :: tail.fst, tail.snd)

/-! Example fixtures used by concrete counterexamples and witnesses. -/

/-- A fixed-offset zone at UTC (offset 0 at every instant). -/
def exTz : Timezone := fun _ => 0

/-- The fixed-offset zone UTC-5 (offset -300 minutes at every instant). -/
def tzUTCminus5 : Timezone := fun _ => -300

/-- A downstream processor that always succeeds. -/
def sessOk : Sessionize := fun _ _ _ => true

/-- A downstream processor that always raises. -/
def sessFail : Sessionize := fun _ _ _ => false

/-- A downstream processor that raises exactly for user 1. -/
def sessFail1 : Sessionize := fun u _ _ => u != 1

/-- A registry with one user in the UTC zone. -/
def exProfiles1 : List Profile := [⟨1, some exTz⟩]

/-- A registry with two users in the UTC zone. -/
def exProfiles2 : List Profile := [⟨1, some exTz⟩, ⟨2, some exTz⟩]

/-! Helper lemmas. -/

theorem hasPair_mono {l l' : Ledger} (hsub : ∀ x ∈ l, x ∈ l') {u : UserId}
    {d : LocalDate} (h : hasPair l u d = true) : hasPair l' u d = true := by
  simp only [hasPair, List.any_eq_true] at h ⊢
  obtain ⟨r, hr, hrp⟩ := h
  exact ⟨r, hsub r hr, hrp⟩

theorem hasPair_cons_self (l : Ledger) (u : UserId) (d : LocalDate)
    (t : Instant) : hasPair (⟨u, d, t⟩ :: l) u d = true := by
  simp [hasPair]

theorem hasPair_false_iff {l : Ledger} {u : UserId} {d : LocalDate} :
    hasPair l u d = false ↔ ∀ r ∈ l, ¬(r.user_id = u ∧ r.local_date = d) := by
  simp [hasPair, List.any_eq_false]

theorem claim_of_absent {l : Ledger} {u : UserId} {d : LocalDate}
    (h : hasPair l u d = false) (t : Instant) :
    claim l u d t = (true, ⟨u, d, t⟩ :: l) := by
  simp [claim, h]

theorem claim_of_present {l : Ledger} {u : UserId} {d : LocalDate}
    (h : hasPair l u d = true) (t : Instant) :
    claim l u d t = (false, l) := by
  simp [claim, h]

theorem tickLoop_nil (sess : Sessionize) (gap lb : Int) (now : Instant)
    (l : Ledger) (runs : Nat) (invoked : List UserId) :
    tickLoop sess gap lb now [] l runs invoked = .ok (l, runs, invoked) := rfl

theorem tickLoop_cons_present {sess : Sessionize} {gap lb : Int}
    {now : Instant} {uid : UserId} {tz : Timezone}
    {rest : List (UserId × Timezone)} {l : Ledger} {runs : Nat}
    {invoked : List UserId} (h : hasPair l uid (localDate now tz) = true) :
    tickLoop sess gap lb now ((uid, tz) :: rest) l runs invoked =
      tickLoop sess gap lb now rest l runs invoked := by
  simp [tickLoop, claim, h]

theorem tickLoop_cons_absent_ok {sess : Sessionize} {gap lb : Int}
    {now : Instant} {uid : UserId} {tz : Timezone}
    {rest : List (UserId × Timezone)} {l : Ledger} {runs : Nat}
    {invoked : List UserId} (h : hasPair l uid (localDate now tz) = false)
    (hs : sess uid gap lb = true) :
    tickLoop sess gap lb now ((uid, tz) :: rest) l runs invoked =
      tickLoop sess gap lb now rest (⟨uid, localDate now tz, now⟩ :: l)
        (runs + 1) (invoked ++ [uid]) := by
  simp [tickLoop, claim, h, hs]

theorem tickLoop_cons_absent_err {sess : Sessionize} {gap lb : Int}
    {now : Instant} {uid : UserId} {tz : Timezone}
    {rest : List (UserId × Timezone)} {l : Ledger} {runs : Nat}
    {invoked : List UserId} (h : hasPair l uid (localDate now tz) = false)
    (hs : sess uid gap lb = false) :
    tickLoop sess gap lb now ((uid, tz) :: rest) l runs invoked =
      .error () := by
  simp [tickLoop, claim, h, hs]

theorem tickLoop_mono (sess : Sessionize) (gap lb : Int) (now : Instant)
    (cs : List (UserId × Timezone)) :
    ∀ (l : Ledger) (runs : Nat) (invoked : List UserId) (l' : Ledger)
      (r' : Nat) (inv' : List UserId),
      tickLoop sess gap lb now cs l runs invoked = .ok (l', r', inv') →
      ∀ x ∈ l, x ∈ l' := by
  induction cs with
  | nil =>
    intro l runs invoked l' r' inv' h x hx
    simp only [tickLoop_nil, Except.ok.injEq, Prod.mk.injEq] at h
    obtain ⟨rfl, -, -⟩ := h
    exact hx
  | cons c rest ih =>
    obtain ⟨uid, tz⟩ := c
    intro l runs invoked l' r' inv' h x hx
    cases hp : hasPair l uid (localDate now tz) with
    | true =>
      rw [tickLoop_cons_present hp] at h
      exact ih l runs invoked l' r' inv' h x hx
    | false =>
      cases hs : sess uid gap lb with
      | false =>
        rw [tickLoop_cons_absent_err hp hs] at h
        exact absurd h (by simp)
      | true =>
        rw [tickLoop_cons_absent_ok hp hs] at h
        exact ih _ _ _ _ _ _ h x (List.mem_cons_of_mem _ hx)

theorem tickLoop_all_claimed (sess : Sessionize) (gap lb : Int)
    (now : Instant) (cs : List (UserId × Timezone)) :
    ∀ (l : Ledger) (runs : Nat) (invoked : List UserId) (l' : Ledger)
      (r' : Nat) (inv' : List UserId),
      tickLoop sess gap lb now cs l runs invoked = .ok (l', r', inv') →
      ∀ c ∈ cs, hasPair l' c.fst (localDate now c.snd) = true := by
  induction cs with
  | nil =>
    intro l runs invoked l' r' inv' h c hc
    exact absurd hc (List.not_mem_nil c)
  | cons c₀ rest ih =>
    obtain ⟨uid, tz⟩ := c₀
    intro l runs invoked l' r' inv' h c hc
    rcases List.mem_cons.mp hc with rfl | hmem
    · cases hp : hasPair l uid (localDate now tz) with
      | true =>
        rw [tickLoop_cons_present hp] at h
        exact hasPair_mono (tickLoop_mono sess gap lb now rest _ _ _ _ _ _ h) hp
      | false =>
        cases hs : sess uid gap lb with
        | false =>
          rw [tickLoop_cons_absent_err hp hs] at h
          exact absurd h (by simp)
        | true =>
          rw [tickLoop_cons_absent_ok hp hs] at h
          exact hasPair_mono (tickLoop_mono sess gap lb now rest _ _ _ _ _ _ h)
            (hasPair_cons_self l uid (localDate now tz) now)
    · cases hp : hasPair l uid (localDate now tz) with
      | true =>
        rw [tickLoop_cons_present hp] at h
        exact ih l runs invoked l' r' inv' h c hmem
      | false =>
        cases hs : sess uid gap lb with
        | false =>
          rw [tickLoop_cons_absent_err hp hs] at h
          exact absurd h (by simp)
        | true =>
          rw [tickLoop_cons_absent_ok hp hs] at h
          exact ih _ _ _ _ _ _ h c hmem

theorem tickLoop_stable (sess : Sessionize) (gap lb : Int) (now : Instant)
    (cs : List (UserId × Timezone)) :
    ∀ (l : Ledger) (runs : Nat) (invoked : List UserId),
      (∀ c ∈ cs, hasPair l c.fst (localDate now c.snd) = true) →
      tickLoop sess gap lb now cs l runs invoked = .ok (l, runs, invoked) := by
  induction cs with
  | nil => intro l runs invoked _; exact tickLoop_nil sess gap lb now l runs invoked
  | cons c₀ rest ih =>
    obtain ⟨uid, tz⟩ := c₀
    intro l runs invoked hall
    rw [tickLoop_cons_present (hall (uid, tz) (List.mem_cons_self _ _))]
    exact ih l runs invoked fun c hc => hall c (List.mem_cons_of_mem _ hc)

theorem tickLoop_count (sess : Sessionize) (gap lb : Int) (now : Instant)
    (cs : List (UserId × Timezone)) :
    ∀ (l : Ledger) (runs : Nat) (invoked : List UserId) (l' : Ledger)
      (r' : Nat) (inv' : List UserId),
      tickLoop sess gap lb now cs l runs invoked = .ok (l', r', inv') →
      l'.length + runs = l.length + r' ∧
      inv'.length + runs = invoked.length + r' := by
  induction cs with
  | nil =>
    intro l runs invoked l' r' inv' h
    simp only [tickLoop_nil, Except.ok.injEq, Prod.mk.injEq] at h
    obtain ⟨rfl, rfl, rfl⟩ := h
    omega
  | cons c₀ rest ih =>
    obtain ⟨uid, tz⟩ := c₀
    intro l runs invoked l' r' inv' h
    cases hp : hasPair l uid (localDate now tz) with
    | true =>
      rw [tickLoop_cons_present hp] at h
      exact ih l runs invoked l' r' inv' h
    | false =>
      cases hs : sess uid gap lb with
      | false =>
        rw [tickLoop_cons_absent_err hp hs] at h
        exact absurd h (by simp)
      | true =>
        rw [tickLoop_cons_absent_ok hp hs] at h
        have := ih _ _ _ _ _ _ h
        simp only [List.length_cons, List.length_append, List.length_nil] at this
        omega

theorem tickLoop_new_records (sess : Sessionize) (gap lb : Int)
    (now : Instant) (cs : List (UserId × Timezone)) :
    ∀ (l : Ledger) (runs : Nat) (invoked : List UserId) (l' : Ledger)
      (r' : Nat) (inv' : List UserId),
      tickLoop sess gap lb now cs l runs invoked = .ok (l', r', inv') →
      ∀ x ∈ l', x ∈ l ∨ ∃ c ∈ cs, x.user_id = c.fst ∧
        x.local_date = localDate now c.snd ∧ x.ran_at = now := by
  induction cs with
  | nil =>
    intro l runs invoked l' r' inv' h x hx
    simp only [tickLoop_nil, Except.ok.injEq, Prod.mk.injEq] at h
    obtain ⟨rfl, -, -⟩ := h
    exact Or.inl hx
  | cons c₀ rest ih =>
    obtain ⟨uid, tz⟩ := c₀
    intro l runs invoked l' r' inv' h x hx
    cases hp : hasPair l uid (localDate now tz) with
    | true =>
      rw [tickLoop_cons_present hp] at h
      rcases ih l runs invoked l' r' inv' h x hx with hl | ⟨c, hc, hrest⟩
      · exact Or.inl hl
      · exact Or.inr ⟨c, List.mem_cons_of_mem _ hc, hrest⟩
    | false =>
      cases hs : sess uid gap lb with
      | false =>
        rw [tickLoop_cons_absent_err hp hs] at h
        exact absurd h (by simp)
      | true =>
        rw [tickLoop_cons_absent_ok hp hs] at h
        rcases ih _ _ _ _ _ _ h x hx with hl | ⟨c, hc, hrest⟩
        · rcases List.mem_cons.mp hl with rfl | hl
          · exact Or.inr ⟨(uid, tz), List.mem_cons_self _ _, rfl, rfl, rfl⟩
          · exact Or.inl hl
        · exact Or.inr ⟨c, List.mem_cons_of_mem _ hc, hrest⟩

theorem tickLoop_err_reason (sess : Sessionize) (gap lb : Int)
    (now : Instant) (cs : List (UserId × Timezone)) :
    ∀ (l : Ledger) (runs : Nat) (invoked : List UserId),
      tickLoop sess gap lb now cs l runs invoked = .error () →
      ∃ c ∈ cs, sess c.fst gap lb = false := by
  induction cs with
  | nil =>
    intro l runs invoked h
    rw [tickLoop_nil] at h
    exact absurd h (by simp)
  | cons c₀ rest ih =>
    obtain ⟨uid, tz⟩ := c₀
    intro l runs invoked h
    cases hp : hasPair l uid (localDate now tz) with
    | true =>
      rw [tickLoop_cons_present hp] at h
      obtain ⟨c, hc, hcf⟩ := ih l runs invoked h
      exact ⟨c, List.mem_cons_of_mem _ hc, hcf⟩
    | false =>
      cases hs : sess uid gap lb with
      | false => exact ⟨(uid, tz), List.mem_cons_self _ _, hs⟩
      | true =>
        rw [tickLoop_cons_absent_ok hp hs] at h
        obtain ⟨c, hc, hcf⟩ := ih _ _ _ h
        exact ⟨c, List.mem_cons_of_mem _ hc, hcf⟩

theorem keysUnique_claim {l : Ledger} (hu : KeysUnique l) (u : UserId)
    (d : LocalDate) (t : Instant) : KeysUnique (claim l u d t).snd := by
  cases hp : hasPair l u d with
  | true => rw [claim_of_present hp]; exact hu
  | false =>
    rw [claim_of_absent hp]
    refine List.pairwise_cons.mpr ⟨?_, hu⟩
    intro b hb hkey
    exact (hasPair_false_iff.mp hp b hb) ⟨hkey.1.symm, hkey.2.symm⟩

theorem keysUnique_tickLoop (sess : Sessionize) (gap lb : Int)
    (now : Instant) (cs : List (UserId × Timezone)) :
    ∀ (l : Ledger) (runs : Nat) (invoked : List UserId) (l' : Ledger)
      (r' : Nat) (inv' : List UserId),
      KeysUnique l →
      tickLoop sess gap lb now cs l runs invoked = .ok (l', r', inv') →
      KeysUnique l' := by
  induction cs with
  | nil =>
    intro l runs invoked l' r' inv' hu h
    simp only [tickLoop_nil, Except.ok.injEq, Prod.mk.injEq] at h
    obtain ⟨rfl, -, -⟩ := h
    exact hu
  | cons c₀ rest ih =>
    obtain ⟨uid, tz⟩ := c₀
    intro l runs invoked l' r' inv' hu h
    cases hp : hasPair l uid (localDate now tz) with
    | true =>
      rw [tickLoop_cons_present hp] at h
      exact ih l runs invoked l' r' inv' hu h
    | false =>
      cases hs : sess uid gap lb with
      | false =>
        rw [tickLoop_cons_absent_err hp hs] at h
        exact absurd h (by simp)
      | true =>
        rw [tickLoop_cons_absent_ok hp hs] at h
        refine ih _ _ _ _ _ _ ?_ h
        have := keysUnique_claim hu uid (localDate now tz) now
        rwa [claim_of_absent hp] at this

theorem claimN_present (u : UserId) (d : LocalDate) (t : Instant) :
    ∀ (n : Nat) (l : Ledger), hasPair l u d = true →
      claimN n l u d t = (List.replicate n false, l) := by
  intro n
  induction n with
  | zero => intro l _; rfl
  | succ m ih =>
    intro l h
    simp only [claimN, claim_of_present h, ih l h, List.replicate_succ]

theorem claimN_absent {l : Ledger} {u : UserId} {d : LocalDate}
    (h : hasPair l u d = false) (t : Instant) (n : Nat) :
    claimN (n + 1) l u d t =
      (true :: List.replicate n false, ⟨u, d, t⟩ :: l) := by
  simp only [claimN, claim_of_absent h,
    claimN_present u d t n (⟨u, d, t⟩ :: l) (hasPair_cons_self l u d t)]

theorem candidates_mem_iff (v_now : Instant) (w : Int)
    (profiles : List Profile) (uid : UserId) (tz : Timezone) :
    (uid, tz) ∈ candidates v_now w profiles ↔
      ∃ p ∈ profiles, p.id = uid ∧ p.timezone = some tz ∧
        localDate v_now tz ≠ localDate (v_now - w) tz := by
  simp only [candidates, List.mem_filterMap]
  constructor
  · rintro ⟨p, hp, hmatch⟩
    cases hptz : p.timezone with
    | none => simp [hptz] at hmatch
    | some tz₀ =>
      simp only [hptz] at hmatch
      split at hmatch
      · simp only [Option.some.injEq, Prod.mk.injEq] at hmatch
        obtain ⟨hid, rfl⟩ := hmatch
        rename_i hd
        exact ⟨p, hp, hid, hptz, hd⟩
      · exact absurd hmatch (by simp)
  · rintro ⟨p, hp, hid, hptz, hd⟩
    refine ⟨p, hp, ?_⟩
    simp only [hptz]
    rw [if_pos hd, hid]

/-! Claim theorems. -/

/-- C1 counterexample: with a single candidate user whose downstream call
raises, the claim on the empty ledger wins (the insert happens), yet after
the tick the ledger does not contain the (user, date) row: the propagating
exception rolled the claim back, refuting the statement that the row
remains after the tick ends. -/
theorem c1_claim_not_rolled_back_counterexample :
    (claim [] 1 (localDate 10 exTz) 10).fst = true ∧
    sessFail 1 10 24 = false ∧
    run_sessionize_for_users_crossing_midnight sessFail 10 24 30 10
      exProfiles1 [] = .error () ∧
    hasPair (tickLedgerAfter sessFail 10 24 30 10 exProfiles1 []) 1
      (localDate 10 exTz) = false :=
  ⟨rfl, rfl, rfl, rfl⟩

/-- C1 (amended): when a downstream call fails after a successful claim
during a tick, the exception propagates out of the function and the
transaction rollback restores the pre-tick ledger, so the claimed row does
not remain; moreover such an error only arises when some candidate had a
failing downstream call. -/
theorem c1_failed_downstream_rolls_back (sess : Sessionize)
    (gap lb w : Int) (now : Instant) (profiles : List Profile) (l : Ledger)
    (h : run_sessionize_for_users_crossing_midnight sess gap lb w now
      profiles l = .error ()) :
    tickLedgerAfter sess gap lb w now profiles l = l ∧
    ∃ c ∈ candidates now w profiles, sess c.fst gap lb = false := by
  constructor
  · unfold tickLedgerAfter
    rw [h]
  · exact tickLoop_err_reason sess gap lb now
      (candidates now w profiles) l 0 [] h

theorem c1_failed_downstream_rolls_back_witness :
    tickLedgerAfter sessFail 10 24 30 10 exProfiles1 [] = [] ∧
    ∃ c ∈ candidates 10 30 exProfiles1, sessFail c.fst 10 24 = false :=
  c1_failed_downstream_rolls_back sessFail 10 24 30 10 exProfiles1 [] rfl

/-- C2 counterexample: two candidate users, the downstream call raising
only for the first.  The tick propagates the error instead of returning a
count, and the second candidate is never claimed: the per-entity failure
is not isolated, refuting the claim. -/
theorem c2_failure_not_isolated_counterexample :
    (candidates 10 30 exProfiles2).map Prod.fst = [1, 2] ∧
    sessFail1 1 10 24 = false ∧
    sessFail1 2 10 24 = true ∧
    run_sessionize_for_users_crossing_midnight sessFail1 10 24 30 10
      exProfiles2 [] = .error () ∧
    hasPair (tickLedgerAfter sessFail1 10 24 30 10 exProfiles2 []) 2
      (localDate 10 exTz) = false :=
  ⟨rfl, rfl, rfl, rfl, rfl⟩

/-- C2 (amended): a downstream-processor failure for one entity aborts the
tick.  When the entity at the head of the candidate list wins its claim
and its downstream call fails, no later candidate is processed: the
function propagates the error instead of returning a count, and the
rollback restores the pre-tick ledger. -/
theorem c2_failure_aborts_tick (sess : Sessionize) (gap lb w : Int)
    (now : Instant) (profiles : List Profile) (l : Ledger) (uid : UserId)
    (tz : Timezone) (rest : List (UserId × Timezone))
    (hc : candidates now w profiles = (uid, tz) :: rest)
    (h1 : hasPair l uid (localDate now tz) = false)
    (h2 : sess uid gap lb = false) :
    run_sessionize_for_users_crossing_midnight sess gap lb w now profiles l
      = .error () ∧
    tickLedgerAfter sess gap lb w now profiles l = l := by
  have herr : run_sessionize_for_users_crossing_midnight sess gap lb w now
      profiles l = .error () := by
    unfold run_sessionize_for_users_crossing_midnight
    rw [hc]
    exact tickLoop_cons_absent_err h1 h2
  refine ⟨herr, ?_⟩
  unfold tickLedgerAfter
  rw [herr]

theorem c2_failure_aborts_tick_witness :
    run_sessionize_for_users_crossing_midnight sessFail1 10 24 30 10
      exProfiles2 [] = .error () ∧
    tickLedgerAfter sessFail1 10 24 30 10 exProfiles2 [] = [] :=
  c2_failure_aborts_tick sessFail1 10 24 30 10 exProfiles2 [] 1 exTz
    [(2, exTz)] rfl rfl rfl

/-- C3: claim returns true iff the (entity, date) pair was absent before
the call; a winning claim inserts exactly that row, a losing claim leaves
the ledger unchanged, and two successive claims for the same pair yield
true then false. -/
theorem c3_claim_contract (l : Ledger) (u : UserId) (d : LocalDate)
    (t t' : Instant) :
    ((claim l u d t).fst = true ↔ hasPair l u d = false) ∧
    (hasPair l u d = false → (claim l u d t).snd = ⟨u, d, t⟩ :: l) ∧
    (hasPair l u d = true → (claim l u d t).snd = l) ∧
    (hasPair l u d = false → (claim l u d t).fst = true ∧
      (claim (claim l u d t).snd u d t').fst = false) := by
  refine ⟨?_, ?_, ?_, ?_⟩
  · cases hp : hasPair l u d <;> simp [claim, hp]
  · intro h; rw [claim_of_absent h]
  · intro h; rw [claim_of_present h]
  · intro h
    rw [claim_of_absent h]
    exact ⟨rfl, by rw [claim_of_present (hasPair_cons_self l u d t) t']⟩

theorem c3_claim_contract_witness :
    (claim [] 1 0 0).fst = true ∧
    (claim (claim [] 1 0 0).snd 1 0 5).fst = false :=
  (c3_claim_contract [] 1 0 0 5).2.2.2 rfl

/-- C4: the at-most-one-record-per-(entity, date) invariant is preserved
by the conflict-checked claim, by a completed tick, by the retention
purge, and by the post-transaction ledger whatever the tick outcome. -/
theorem c4_keys_unique (sess : Sessionize) (gap lb w : Int) (now : Instant)
    (profiles : List Profile) (l : Ledger) (u : UserId) (d : LocalDate)
    (t cutoff : Instant) (hu : KeysUnique l) :
    KeysUnique (claim l u d t).snd ∧
    (∀ l' r' inv', run_sessionize_for_users_crossing_midnight sess gap lb w
      now profiles l = .ok (l', r', inv') → KeysUnique l') ∧
    KeysUnique (purge_older_than cutoff l).fst ∧
    KeysUnique (tickLedgerAfter sess gap lb w now profiles l) := by
  refine ⟨keysUnique_claim hu u d t, ?_, ?_, ?_⟩
  · intro l' r' inv' h
    exact keysUnique_tickLoop sess gap lb now
      (candidates now w profiles) l 0 [] l' r' inv' hu h
  · exact List.Pairwise.sublist (List.filter_sublist l) hu
  · unfold tickLedgerAfter
    cases hrun : run_sessionize_for_users_crossing_midnight sess gap lb w
        now profiles l with
    | ok res =>
      obtain ⟨l', r', inv'⟩ := res
      exact keysUnique_tickLoop sess gap lb now
        (candidates now w profiles) l 0 [] l' r' inv' hu hrun
    | error e =>
      exact hu

theorem c4_keys_unique_witness : KeysUnique (claim [] 1 0 0).snd :=
  (c4_keys_unique sessOk 10 24 30 10 [] [] 1 0 0 0 List.Pairwise.nil).1

/-- C5: the detector returns true exactly when the local date at now
differs from the local date at now minus the window, each side resolving
the zone offset at its own instant; and a user is selected as a candidate
in a tick exactly when it is registered with a timezone for which the
detector is true. -/
theorem c5_detect_spec (now w : Instant) (profiles : List Profile)
    (uid : UserId) (tz : Timezone) :
    (detect now w tz = true ↔
      localDate now tz ≠ localDate (now - w) tz) ∧
    ((uid, tz) ∈ candidates now w profiles ↔
      ∃ p ∈ profiles, p.id = uid ∧ p.timezone = some tz ∧
        detect now w tz = true) := by
  have hdet : detect now w tz = true ↔
      localDate now tz ≠ localDate (now - w) tz := by
    simp [detect, bne_iff_ne]
  refine ⟨hdet, ?_⟩
  simp only [candidates_mem_iff, hdet]

/-- C6: re-running a tick with the same now and candidate set on the
ledger left by a completed tick yields zero downstream invocations, a zero
count and an unchanged ledger; every candidate pair is already claimed, so
there are no genuinely new candidates left to count. -/
theorem c6_rerun_no_new_invocations (sess : Sessionize) (gap lb w : Int)
    (now : Instant) (profiles : List Profile) (l₀ l₁ : Ledger) (n : Nat)
    (inv : List UserId)
    (h : run_sessionize_for_users_crossing_midnight sess gap lb w now
      profiles l₀ = .ok (l₁, n, inv)) :
    run_sessionize_for_users_crossing_midnight sess gap lb w now profiles
      l₁ = .ok (l₁, 0, []) ∧
    ∀ c ∈ candidates now w profiles,
      hasPair l₁ c.fst (localDate now c.snd) = true := by
  have hall := tickLoop_all_claimed sess gap lb now
    (candidates now w profiles) l₀ 0 [] l₁ n inv h
  exact ⟨tickLoop_stable sess gap lb now _ l₁ 0 [] hall, hall⟩

theorem c6_rerun_no_new_invocations_witness :
    run_sessionize_for_users_crossing_midnight sessOk 10 24 30 10
      exProfiles2 [⟨2, 0, 10⟩, ⟨1, 0, 10⟩] =
      .ok ([⟨2, 0, 10⟩, ⟨1, 0, 10⟩], 0, []) :=
  (c6_rerun_no_new_invocations sessOk 10 24 30 10 exProfiles2 []
    [⟨2, 0, 10⟩, ⟨1, 0, 10⟩] 2 [1, 2] rfl).1

/-- C7: the count a completed tick returns equals the number of downstream
invocations made during the tick, and equals the number of rows newly
inserted into the dedupe ledger. -/
theorem c7_tick_count (sess : Sessionize) (gap lb w : Int) (now : Instant)
    (profiles : List Profile) (l l' : Ledger) (n : Nat)
    (inv : List UserId)
    (h : run_sessionize_for_users_crossing_midnight sess gap lb w now
      profiles l = .ok (l', n, inv)) :
    n = inv.length ∧ l'.length = l.length + n := by
  have := tickLoop_count sess gap lb now (candidates now w profiles) l 0
    [] l' n inv h
  simp only [List.length_nil] at this
  omega

theorem c7_tick_count_witness :
    (2 : Nat) = ([1, 2] : List UserId).length ∧
    ([⟨2, 0, 10⟩, ⟨1, 0, 10⟩] : Ledger).length = ([] : Ledger).length + 2 :=
  c7_tick_count sessOk 10 24 30 10 exProfiles2 []
    [⟨2, 0, 10⟩, ⟨1, 0, 10⟩] 2 [1, 2] rfl

/-- C8: with a 30-minute window, a user at fixed offset UTC-5 whose local
midnight falls at 05:00 UTC (instant 300 of day 0) is detected by at least
one of the ticks at 04:50 UTC (instant 290) and 05:05 UTC (instant 305):
the 05:05 tick compares the local dates at 05:05 and 04:35, which differ;
the last conjunct places the local date flip at 05:00 UTC itself. -/
theorem c8_utc_minus_5_crossing_detected :
    (detect 290 30 tzUTCminus5 = true ∨ detect 305 30 tzUTCminus5 = true) ∧
    localDate 305 tzUTCminus5 ≠ localDate (305 - 30) tzUTCminus5 ∧
    localDate 300 tzUTCminus5 ≠ localDate 299 tzUTCminus5 := by
  decide

/-- C9: n callers issuing the identical claim for a pair absent from the
ledger (modelled as a serial chain, which the atomicity of the
conflict-checked insert makes equivalent to every interleaving) produce
exactly one true and n - 1 false results. -/
theorem c9_n_claims_one_winner (l : Ledger) (u : UserId) (d : LocalDate)
    (t : Instant) (n : Nat) (habs : hasPair l u d = false) (hn : 2 ≤ n) :
    (claimN n l u d t).fst.count true = 1 ∧
    (claimN n l u d t).fst.count false = n - 1 := by
  obtain ⟨m, rfl⟩ : ∃ m, n = m + 1 := ⟨n - 1, by omega⟩
  rw [claimN_absent habs t m]
  simp [List.count_cons, List.count_replicate]

theorem c9_n_claims_one_winner_witness :
    (claimN 3 [] 1 0 0).fst.count true = 1 ∧
    (claimN 3 [] 1 0 0).fst.count false = 3 - 1 :=
  c9_n_claims_one_winner [] 1 0 0 3 rfl (by decide)

/-- C10: every row a completed tick adds to the ledger carries as its
local_date the civil date of the tick instant now in the candidate's
timezone (and now itself as ran_at) — never the date at now minus the
window. -/
theorem c10_recorded_date_is_now (sess : Sessionize) (gap lb w : Int)
    (now : Instant) (profiles : List Profile) (l₀ l₁ : Ledger) (n : Nat)
    (inv : List UserId)
    (h : run_sessionize_for_users_crossing_midnight sess gap lb w now
      profiles l₀ = .ok (l₁, n, inv)) :
    ∀ x ∈ l₁, x ∈ l₀ ∨ ∃ c ∈ candidates now w profiles,
      x.user_id = c.fst ∧ x.local_date = localDate now c.snd ∧
      x.ran_at = now :=
  tickLoop_new_records sess gap lb now (candidates now w profiles) l₀ 0 []
    l₁ n inv h

theorem c10_recorded_date_is_now_witness :
    (⟨1, 0, 10⟩ : DedupeRecord) ∈ ([] : Ledger) ∨
    ∃ c ∈ candidates 10 30 exProfiles2,
      (⟨1, 0, 10⟩ : DedupeRecord).user_id = c.fst ∧
      (⟨1, 0, 10⟩ : DedupeRecord).local_date = localDate 10 c.snd ∧
      (⟨1, 0, 10⟩ : DedupeRecord).ran_at = 10 :=
  c10_recorded_date_is_now sessOk 10 24 30 10 exProfiles2 []
    [⟨2, 0, 10⟩, ⟨1, 0, 10⟩] 2 [1, 2] rfl ⟨1, 0, 10⟩ (by decide)

end MidnightScheduler
